import Mathlib

/-!
Verification of the Hydrogen audio-driver core: the `EventQueue` ring buffer
(`src/core/EventQueue.cpp`), and spec-modelled fragments of the JACK driver
(transport-frame offset, timebase-master arbitration, relocation wait counter,
per-track port manager) whose implementations are only declared in
`JackAudioDriver.h`.
-/

/-- Modulus of the C++ `unsigned int` type (2^32) used for the
`__read_index` / `__write_index` members of `EventQueue`. -/
def UINT_MOD : Nat := 4294967296

/-- Event types. `EVENT_NONE` is the sentinel from `EventQueue.cpp`; the other
constructors are modelled from the spec ("Event type enumeration consumed by
non-real-time layer includes at least: NONE, SERVER_SHUTDOWN, ROLE_CHANGED,
RELOCATION_OCCURRED"), since `EventQueue.h` is not part of the sources. -/
inductive EventType where
  | EVENT_NONE
  | EVENT_SERVER_SHUTDOWN
  | EVENT_ROLE_CHANGED
  | EVENT_RELOCATION_OCCURRED
deriving DecidableEq, Repr

/-- An `Event`: a type tag and an integer payload (`Event` in `EventQueue.h`,
as used by `EventQueue.cpp`). -/
structure Event where
  type : EventType
  value : Int
deriving DecidableEq, Repr

/-- The `EVENT_NONE`-typed sentinel with value 0, as built by
`EventQueue::pop_event` on an empty queue and by the constructor. -/
def eventNone : Event := ⟨EventType.EVENT_NONE, 0⟩

/-- State of an `EventQueue`: the two `unsigned int` cursors and the
`__events_buffer` array (modelled as a function from slot index to `Event`;
only slots below the capacity `MAX_EVENTS` are ever accessed).
The capacity itself is passed to each operation as a parameter `C`, since the
constant `MAX_EVENTS` lives in the missing `EventQueue.h`. -/
structure EventQueue where
  read_index : Nat
  write_index : Nat
  events_buffer : Nat → Event

/-- Constructor `EventQueue::EventQueue()`: both cursors 0, every buffer slot set to the
`EVENT_NONE` / 0 event. -/
def EventQueue.init : EventQueue := ⟨0, 0, fun _ => eventNone⟩

/-- Operation `EventQueue::push_event`: pre-increment the write cursor (unsigned-int
arithmetic, i.e. modulo 2^32), reduce it modulo the capacity `C` to obtain the
slot, and store the event there.  Never blocks, never fails. -/
def push_event (C : Nat) (t : EventType) (v : Int) (s : EventQueue) : EventQueue :=
  let nIndex := (s.write_index + 1) % UINT_MOD
  { read_index := s.read_index
    write_index := nIndex
    events_buffer := Function.update s.events_buffer (nIndex % C) ⟨t, v⟩ }

/-- Operation `EventQueue::pop_event`: if the read cursor equals the write cursor the
queue is considered empty and the `EVENT_NONE` sentinel is returned with the
state untouched; otherwise the read cursor is pre-incremented (modulo 2^32)
and the slot at (cursor mod `C`) is returned. -/
def pop_event (C : Nat) (s : EventQueue) : Event × EventQueue :=
  if s.read_index = s.write_index then (eventNone, s)
  else
    let nIndex := (s.read_index + 1) % UINT_MOD
    (s.events_buffer (nIndex % C), { s with read_index := nIndex })

/-- Push a whole list of events in order. -/
def pushList (C : Nat) (es : List Event) (s : EventQueue) : EventQueue :=
  es.foldl (fun s e => push_event C e.type e.value s) s

/-- Pop repeatedly (at most `fuel` times), collecting the returned events,
stopping as soon as the queue reports empty (i.e. as soon as `pop_event`
would return the sentinel without consuming anything). -/
def drain (C : Nat) : Nat → EventQueue → List Event
  | 0, _ => []
  | fuel + 1, s =>
    if s.read_index = s.write_index then []
    else
      let p := pop_event C s
      p.1 :: drain C fuel p.2

/-- Iterate `pop_event` `n` times, keeping only the final state. -/
def pop_n (C : Nat) : Nat → EventQueue → EventQueue
  | 0, s => s
  | n + 1, s => pop_n C n (pop_event C s).2

/-- A sample non-sentinel event used by concrete witnesses: a `ROLE_CHANGED`
event whose payload distinguishes it. -/
def evE (n : Int) : Event := ⟨EventType.EVENT_ROLE_CHANGED, n⟩

/-! ### Transport synchronization (frame offset)

Modelled from the spec: the implementations of
`JackAudioDriver::updateTransportInfo` and
`JackAudioDriver::calculateFrameOffset` are not under `src/` (only their
declarations and doc comments in `JackAudioDriver.h` are), so the per-cycle
frame bookkeeping is modelled from §4.2 and §3 of the spec: during a normal
rolling cycle both the internal and the external frame advance by the buffer
size; at a tick-size change the internal frame is recomputed from the musical
position under the new tick size and `m_frameOffset` is set to
externalFrame − recomputedInternalFrame; at a relocation the internal
position is snapped to the external target. -/

/-- Modelled from the spec: the frame-domain state relating Hydrogen's
internal transport position to the JACK server's external one, with the
constant offset `m_frameOffset` of `JackAudioDriver`. -/
structure TransportSyncState where
  internalFrame : Int
  externalFrame : Int
  m_frameOffset : Int
  tickSize : Int
deriving DecidableEq, Repr

/-- Modelled from the spec: the three kinds of transport cycle relevant to the
frame offset — a normal rolling cycle of `nFrames` frames, a tick-size change
(carrying the recomputed internal frame for the unchanged musical position),
and a relocation. -/
inductive TransportCycleEvent where
  | advance (nFrames : Nat)
  | tickSizeChange (newTickSize recomputedInternalFrame : Int)
  | relocate (targetFrame : Int)
deriving DecidableEq, Repr

/-- Whether a cycle is a plain rolling cycle (no tick-size change, no
relocation). -/
def TransportCycleEvent.isAdvance : TransportCycleEvent → Bool
  | .advance _ => true
  | _ => false

/-- Modelled from the spec: one transport cycle (spec §4.2 / §3). -/
def transportCycle : TransportCycleEvent → TransportSyncState → TransportSyncState
  | .advance n, s =>
      { s with internalFrame := s.internalFrame + n, externalFrame := s.externalFrame + n }
  | .tickSizeChange ts ri, s =>
      { internalFrame := ri
        externalFrame := s.externalFrame
        m_frameOffset := s.externalFrame - ri
        tickSize := ts }
  | .relocate f, s =>
      { internalFrame := f
        externalFrame := f
        m_frameOffset := 0
        tickSize := s.tickSize }

/-- Run a sequence of transport cycles. -/
def runTransportCycles (evs : List TransportCycleEvent) (s : TransportSyncState) :
    TransportSyncState :=
  evs.foldl (fun s e => transportCycle e s) s

/-! ### Timebase master arbitration

Modelled from the spec: the body of `JackAudioDriver::updateTransportInfo` and
`JackAudioDriver::JackTimebaseCallback` is not under `src/`; the
countdown protocol is modelled from spec §4.3 and the doc comment of
`m_nTimebaseTracking` in `JackAudioDriver.h`: the counter is reset to 1 each
time the timebase callback fires, decremented on every cycle the callback was
expected, and when it reaches zero the local role is demoted from Master. -/

/-- The `JackAudioDriver::Timebase` role enumeration (Master = Hydrogen is
timebase master, Slave = an external program is, None = only normal
clients). -/
inductive Timebase where
  | Master
  | Slave
  | None
deriving DecidableEq, Repr

/-- Arbitration state: the `m_nTimebaseTracking` countdown and the
user-visible `m_timebaseState` role. -/
structure TimebaseArbState where
  m_nTimebaseTracking : Int
  m_timebaseState : Timebase
deriving DecidableEq, Repr

/-- Modelled from the spec: the fixed positive reset value of the countdown.
`JackAudioDriver.h` documents that `m_nTimebaseTracking` is "initialized
with 1 ... and reset to 1 in JackTimebaseCallback()". -/
def TIMEBASE_RESET : Int := 1

/-- Modelled from the spec (§4.3): one cycle of countdown maintenance while
the local role is Master: a firing callback resets the countdown; a missed
callback decrements it, and reaching zero demotes the role (the external
server has silently stopped recognizing this process as Master). -/
def timebaseCycle (bCallbackFired : Bool) (s : TimebaseArbState) : TimebaseArbState :=
  if s.m_timebaseState = Timebase.Master then
    if bCallbackFired then { s with m_nTimebaseTracking := TIMEBASE_RESET }
    else
      let t := s.m_nTimebaseTracking - 1
      if t ≤ 0 then { m_nTimebaseTracking := t, m_timebaseState := Timebase.Slave }
      else { s with m_nTimebaseTracking := t }
  else s

/-- Run a sequence of cycles; each list entry tells whether the timebase
callback fired during that cycle. -/
def runTimebaseCycles (fires : List Bool) (s : TimebaseArbState) : TimebaseArbState :=
  fires.foldl (fun s b => timebaseCycle b s) s

/-! ### Relocation wait counter (`nWaits`)

Modelled from the spec: the body of `JackAudioDriver::JackTimebaseCallback`
is not under `src/`; the two-cycle tempo-broadcast suppression after a
relocation issued by the local timebase master is modelled from spec §4.3 and
the doc comment of `JackAudioDriver::nWaits`. -/

/-- What the timebase callback broadcasts in a cycle: either a position update
computed from the pending relocation target (tempo broadcast suppressed), or
the current tempo. -/
inductive TimebaseBroadcast where
  | fromRelocationTarget
  | tempoBroadcast
deriving DecidableEq, Repr

/-- Modelled from the spec: "tempo broadcast must be suppressed for exactly
two full cycles after the relocation"; a relocation issued while Master sets
`nWaits` to this value. -/
def RELOCATION_WAIT_CYCLES : Nat := 2

/-- Modelled from the spec: one invocation of the timebase callback: while
`nWaits` is positive the position update is computed from the relocation
target rather than broadcasting the current tempo, and `nWaits` is
decremented; afterwards the tempo broadcast resumes. -/
def timebaseCallbackStep (nWaits : Nat) : TimebaseBroadcast × Nat :=
  if 0 < nWaits then (TimebaseBroadcast.fromRelocationTarget, nWaits - 1)
  else (TimebaseBroadcast.tempoBroadcast, nWaits)

/-- Run `k` consecutive timebase-callback cycles from a given `nWaits` value,
collecting what each cycle broadcast. -/
def timebaseCallbackRun : Nat → Nat → List TimebaseBroadcast
  | 0, _ => []
  | k + 1, w => (timebaseCallbackStep w).1 :: timebaseCallbackRun k (timebaseCallbackStep w).2

/-! ### Per-track port manager

Modelled from the spec: the bodies of `JackAudioDriver::makeTrackOutputs` and
`JackAudioDriver::setTrackOutput` are not under `src/`; they are modelled
from their doc comments in `JackAudioDriver.h` and spec §4.4: iterate
instruments and their components in order, assigning sequential track
indices; for index `n`, `setTrackOutput` registers `n + 1 − m_nTrackPortCount`
new stereo port pairs if the index is beyond the current count and then
unconditionally renames the `n`-th pair to
`Track_<componentName>_<n+1>_<instrumentName>_<L|R>`; afterwards
`makeTrackOutputs` unregisters every pair beyond the new maximum and rebuilds
`m_trackMap` from scratch. -/

/-- An instrument component: the drumkit component it refers to
(`InstrumentComponent::__related_drumkit_componentID`) together with that
component's name (`DrumkitComponent::__name`, looked up via the song). -/
structure InstrumentComponent where
  related_drumkit_componentID : Nat
  drumkitComponentName : String
deriving DecidableEq, Repr

/-- An instrument: its id (`Instrument::__id`), name (`Instrument::__name`)
and components. -/
structure Instrument where
  id : Nat
  name : String
  components : List InstrumentComponent
deriving DecidableEq, Repr

/-- The per-track port state of the JACK driver: the number of stereo pairs in
use (`m_nTrackPortCount`) and the current names of the left/right ports
(`m_pTrackOutputPortsL` / `m_pTrackOutputPortsR`; the empty string stands for
an unregistered port slot). -/
structure TrackPortState where
  m_nTrackPortCount : Nat
  portsL : Nat → String
  portsR : Nat → String

/-- The rename target for the left port of track `n`:
`Track_<componentName>_<n+1>_<instrumentName>_L` (doc comment of
`setTrackOutput`). -/
def trackPortNameL (compoName : String) (n : Nat) (instrName : String) : String :=
  "Track_" ++ compoName ++ "_" ++ toString (n + 1) ++ "_" ++ instrName ++ "_L"

/-- The rename target for the right port of track `n`. -/
def trackPortNameR (compoName : String) (n : Nat) (instrName : String) : String :=
  "Track_" ++ compoName ++ "_" ++ toString (n + 1) ++ "_" ++ instrName ++ "_R"

/-- Name given to a freshly registered left port of index `m` before the
rename. -/
def provisionalPortNameL (m : Nat) : String := "Track_" ++ toString (m + 1) ++ "_L"

/-- Name given to a freshly registered right port of index `m` before the
rename. -/
def provisionalPortNameR (m : Nat) : String := "Track_" ++ toString (m + 1) ++ "_R"

/-- Modelled from the spec: `JackAudioDriver::setTrackOutput`: if track `n` is
beyond `m_nTrackPortCount`, register the missing stereo pairs (two
`jack_port_register` calls per pair) and update the count; then rename the
`n`-th pair (two rename calls). Returns the new state, the number of
`jack_port_register` calls and the number of rename calls. -/
def setTrackOutput (n : Nat) (instr : Instrument) (pCompo : InstrumentComponent)
    (s : TrackPortState) : TrackPortState × Nat × Nat :=
  let s1 : TrackPortState :=
    if s.m_nTrackPortCount ≤ n then
      { m_nTrackPortCount := n + 1
        portsL := fun m => if s.m_nTrackPortCount ≤ m ∧ m ≤ n then provisionalPortNameL m
                           else s.portsL m
        portsR := fun m => if s.m_nTrackPortCount ≤ m ∧ m ≤ n then provisionalPortNameR m
                           else s.portsR m }
    else s
  let nMade := if s.m_nTrackPortCount ≤ n then 2 * (n + 1 - s.m_nTrackPortCount) else 0
  ({ m_nTrackPortCount := s1.m_nTrackPortCount
     portsL := Function.update s1.portsL n
       (trackPortNameL pCompo.drumkitComponentName n instr.name)
     portsR := Function.update s1.portsR n
       (trackPortNameR pCompo.drumkitComponentName n instr.name) },
   nMade, 2)

/-- Apply `setTrackOutput` to a list of (instrument, component) pairs with
sequential track indices starting at `n`, accumulating the register/rename
call counts. -/
def runPairs : List (Instrument × InstrumentComponent) → Nat → TrackPortState →
    TrackPortState × Nat × Nat
  | [], _, s => (s, 0, 0)
  | p :: rest, n, s =>
    let r1 := setTrackOutput n p.1 p.2 s
    let r2 := runPairs rest (n + 1) r1.1
    (r2.1, r1.2.1 + r2.2.1, r1.2.2 + r2.2.2)

/-- The (instrument, component) pairs of a song, in the stable iteration order
of `makeTrackOutputs`. -/
def songPairs (song : List Instrument) : List (Instrument × InstrumentComponent) :=
  song.flatMap (fun i => i.components.map (fun c => (i, c)))

/-- Rebuild `m_trackMap` (instrument id, drumkit component id ↦ track index)
from the pair list, starting from the zeroed matrix. -/
def buildTrackMap : List (Instrument × InstrumentComponent) → Nat → (Nat → Nat → Nat) →
    (Nat → Nat → Nat)
  | [], _, f => f
  | p :: rest, n, f =>
    buildTrackMap rest (n + 1)
      (fun a b => if a = p.1.id ∧ b = p.2.related_drumkit_componentID then n else f a b)

/-- Result of one `makeTrackOutputs` invocation: the new port state, the
rebuilt `m_trackMap`, and the numbers of `jack_port_register` and rename
calls performed. -/
structure MakeTrackOutputsResult where
  state : TrackPortState
  m_trackMap : Nat → Nat → Nat
  nRegistered : Nat
  nRenamed : Nat

/-- Modelled from the spec: `JackAudioDriver::makeTrackOutputs`: reset
`m_trackMap`, run `setTrackOutput` over all instrument components with
sequential track indices, then unregister (blank out) every port pair beyond
the new track count and set `m_nTrackPortCount` to it. -/
def makeTrackOutputs (song : List Instrument) (s : TrackPortState) : MakeTrackOutputsResult :=
  let pairs := songPairs song
  let r := runPairs pairs 0 s
  { state :=
      { m_nTrackPortCount := pairs.length
        portsL := fun m => if pairs.length ≤ m ∧ m < r.1.m_nTrackPortCount then ""
                           else r.1.portsL m
        portsR := fun m => if pairs.length ≤ m ∧ m < r.1.m_nTrackPortCount then ""
                           else r.1.portsR m }
    m_trackMap := buildTrackMap pairs 0 (fun _ _ => 0)
    nRegistered := r.2.1
    nRenamed := r.2.2 }

/-- The port state before any port has been registered. -/
def emptyTrackPorts : TrackPortState := ⟨0, fun _ => "", fun _ => ""⟩

/-- A one-instrument, one-component song used by concrete counterexamples and
witnesses. -/
def songKick : List Instrument := [⟨0, "Kick", [⟨0, "Main"⟩]⟩]

/-- A sample non-empty queue state used by concrete witnesses. -/
def qSample : EventQueue := ⟨5, 7, fun _ => eventNone⟩

/-- A sample buffer content used by concrete witnesses. -/
def bufSample : Nat → Event := fun _ => eventNone

theorem UINT_MOD_pos : 0 < UINT_MOD := by decide

theorem push_event_read (C : Nat) (t : EventType) (v : Int) (s : EventQueue) :
    (push_event C t v s).read_index = s.read_index := rfl

theorem push_event_write (C : Nat) (t : EventType) (v : Int) (s : EventQueue) :
    (push_event C t v s).write_index = (s.write_index + 1) % UINT_MOD := rfl

theorem pushList_read (C : Nat) (es : List Event) (s : EventQueue) :
    (pushList C es s).read_index = s.read_index := by
  induction es generalizing s with
  | nil => rfl
  | cons e es ih => simpa [pushList, push_event] using ih _

theorem pushList_write (C : Nat) (es : List Event) (s : EventQueue)
    (hw : s.write_index < UINT_MOD) :
    (pushList C es s).write_index = (s.write_index + es.length) % UINT_MOD := by
  induction es generalizing s with
  | nil =>
    simp only [pushList, List.foldl_nil, List.length_nil, Nat.add_zero]
    exact (Nat.mod_eq_of_lt hw).symm
  | cons e es ih =>
    have h := ih (push_event C e.type e.value s)
      (by rw [push_event_write]; exact Nat.mod_lt _ UINT_MOD_pos)
    simp only [pushList, List.foldl_cons] at h ⊢
    rw [h, push_event_write, Nat.mod_add_mod, List.length_cons]
    congr 1
    omega

theorem pushList_append (C : Nat) (as bs : List Event) (s : EventQueue) :
    pushList C (as ++ bs) s = pushList C bs (pushList C as s) := by
  simp [pushList, List.foldl_append]

theorem push_event_buffer (C : Nat) (t : EventType) (v : Int) (s : EventQueue) :
    (push_event C t v s).events_buffer =
      Function.update s.events_buffer (((s.write_index + 1) % UINT_MOD) % C) ⟨t, v⟩ := rfl

/-- Two counter values whose distance is positive and below the capacity land in
different buffer slots. -/
theorem mod_ne_of_window (C a b : Nat) (h1 : a < b) (h2 : b - a < C) : a % C ≠ b % C := by
  intro h
  have hmod : a ≡ b [MOD C] := h
  have hdvd : C ∣ b - a := (Nat.modEq_iff_dvd' (Nat.le_of_lt h1)).1 hmod
  have hle : C ≤ b - a := Nat.le_of_dvd (by omega) hdvd
  omega

/-- After pushing the list `bs`, the slot written by the `i`-th push still holds
`bs[i]`, provided the slots of the pushes of `bs` are pairwise distinct
(hypothesis `hkey`). -/
theorem pushList_buffer (C : Nat) (bs : List Event) :
    ∀ (s : EventQueue), s.write_index < UINT_MOD →
    (∀ t1 t2 : Nat, 0 < t1 → t1 < t2 → t2 ≤ bs.length →
      ((s.write_index + t1) % UINT_MOD) % C ≠ ((s.write_index + t2) % UINT_MOD) % C) →
    ∀ (i : Nat) (hi : i < bs.length),
    (pushList C bs s).events_buffer (((s.write_index + (i + 1)) % UINT_MOD) % C) =
      bs.get ⟨i, hi⟩ := by
  induction bs using List.reverseRecOn with
  | nil => intro s hw hkey i hi; simp at hi
  | append_singleton cs c ih =>
    intro s hw hkey i hi
    rw [pushList_append]
    have hwcs : (pushList C cs s).write_index = (s.write_index + cs.length) % UINT_MOD :=
      pushList_write C cs s hw
    have hbuf : (pushList C [c] (pushList C cs s)).events_buffer =
        Function.update (pushList C cs s).events_buffer
          ((((pushList C cs s).write_index + 1) % UINT_MOD) % C) ⟨c.type, c.value⟩ := rfl
    rw [hbuf]
    have hlast : (((pushList C cs s).write_index + 1) % UINT_MOD) % C
        = ((s.write_index + (cs.length + 1)) % UINT_MOD) % C := by
      rw [hwcs, Nat.mod_add_mod]
      congr 2
    rcases Nat.lt_or_ge i cs.length with hlt | hge
    · have hne : ((s.write_index + (i + 1)) % UINT_MOD) % C ≠
          ((s.write_index + (cs.length + 1)) % UINT_MOD) % C :=
        hkey (i + 1) (cs.length + 1) (by omega) (by omega) (by simp)
      rw [hlast, Function.update_noteq hne]
      have hkey' : ∀ t1 t2 : Nat, 0 < t1 → t1 < t2 → t2 ≤ cs.length →
          ((s.write_index + t1) % UINT_MOD) % C ≠ ((s.write_index + t2) % UINT_MOD) % C := by
        intro t1 t2 h1 h2 h3
        exact hkey t1 t2 h1 h2 (by simp; omega)
      rw [ih s hw hkey' i hlt]
      have : (cs ++ [c]).get ⟨i, hi⟩ = cs.get ⟨i, hlt⟩ := List.getElem_append_left hlt
      rw [this]
    · have hieq : i = cs.length := by
        have : i < cs.length + 1 := by simpa using hi
        omega
      subst hieq
      rw [hlast, Function.update_same]
      have hc : (cs ++ [c]).get ⟨cs.length, hi⟩ = c :=
        List.getElem_concat_length cs c cs.length rfl _
      rw [hc]

/-- Draining a queue whose write cursor is `d` (unsigned) steps ahead of the
read cursor yields, in order, the buffer contents at the `d` slots the read
cursor will pass through. -/
theorem drain_spec (C : Nat) (d : Nat) :
    ∀ (fuel : Nat) (s : EventQueue), s.read_index < UINT_MOD → d + 1 < UINT_MOD →
    s.write_index = (s.read_index + d) % UINT_MOD → d ≤ fuel →
    drain C fuel s =
      (List.range d).map
        (fun i => s.events_buffer (((s.read_index + (i + 1)) % UINT_MOD) % C)) := by
  induction d with
  | zero =>
    intro fuel s hr _ hw _
    have hempty : s.read_index = s.write_index := by
      rw [hw, Nat.add_zero, Nat.mod_eq_of_lt hr]
    cases fuel with
    | zero => simp [drain]
    | succ f => simp [drain, hempty]
  | succ d ih =>
    intro fuel s hr hd hw hfuel
    have hne : s.read_index ≠ s.write_index := by
      intro h
      rw [hw] at h
      have h1 : s.read_index % UINT_MOD = (s.read_index + (d + 1)) % UINT_MOD := by
        rw [Nat.mod_eq_of_lt hr]
        exact h
      have h2 : UINT_MOD ∣ (s.read_index + (d + 1)) - s.read_index :=
        (Nat.modEq_iff_dvd' (by omega)).1 h1
      have h3 : UINT_MOD ≤ d + 1 := Nat.le_of_dvd (by omega) (by simpa using h2)
      omega
    cases fuel with
    | zero => omega
    | succ f =>
      have hdrain : drain C (f + 1) s = (pop_event C s).1 :: drain C f (pop_event C s).2 := by
        simp [drain, hne]
      have hpop1 : (pop_event C s).1 =
          s.events_buffer (((s.read_index + 1) % UINT_MOD) % C) := by
        simp [pop_event, hne]
      have hpop2 : (pop_event C s).2 =
          { s with read_index := (s.read_index + 1) % UINT_MOD } := by
        simp [pop_event, hne]
      rw [hdrain, hpop1, hpop2]
      have hr' : ((s.read_index + 1) % UINT_MOD) < UINT_MOD := Nat.mod_lt _ UINT_MOD_pos
      have hw' : s.write_index = (((s.read_index + 1) % UINT_MOD) + d) % UINT_MOD := by
        rw [Nat.mod_add_mod, hw]
        congr 1
        omega
      rw [ih f { s with read_index := (s.read_index + 1) % UINT_MOD } hr' (by omega) hw'
        (by omega)]
      rw [List.range_succ_eq_map, List.map_cons, List.map_map]
      congr 1
      apply List.map_congr_left
      intro a _
      show s.events_buffer ((((s.read_index + 1) % UINT_MOD + (a + 1)) % UINT_MOD) % C) = _
      congr 2
      rw [Nat.mod_add_mod]
      congr 1
      omega

/-- Draining a queue obtained by pushing `es` onto an empty queue (both cursors
at `r`) returns exactly `es`, provided the pushes land in pairwise distinct
slots (`hkey`). -/
theorem drain_pushList (C : Nat) (r : Nat) (buf : Nat → Event) (es : List Event)
    (hr : r < UINT_MOD) (hU : es.length + 1 < UINT_MOD)
    (hkey : ∀ t1 t2 : Nat, 0 < t1 → t1 < t2 → t2 ≤ es.length →
      ((r + t1) % UINT_MOD) % C ≠ ((r + t2) % UINT_MOD) % C)
    (fuel : Nat) (hfuel : es.length ≤ fuel) :
    drain C fuel (pushList C es ⟨r, r, buf⟩) = es := by
  have hread : (pushList C es ⟨r, r, buf⟩).read_index = r := pushList_read C es _
  have hwrite : (pushList C es ⟨r, r, buf⟩).write_index = (r + es.length) % UINT_MOD :=
    pushList_write C es _ hr
  rw [drain_spec C es.length fuel _ (by rw [hread]; exact hr) hU (by rw [hwrite, hread]) hfuel]
  apply List.ext_getElem
  · simp
  · intro i h1 h2
    simp only [List.getElem_map, List.getElem_range]
    rw [hread]
    have hi : i < es.length := by simpa using h2
    exact pushList_buffer C es ⟨r, r, buf⟩ hr hkey i hi

/-- The slots of up to `C` consecutive pushes are pairwise distinct when the
write counter does not wrap past 2^32 in between. -/
theorem slots_distinct_of_no_wrap (C r n : Nat) (hn : n ≤ C) (hU : r + n < UINT_MOD) :
    ∀ t1 t2 : Nat, 0 < t1 → t1 < t2 → t2 ≤ n →
      ((r + t1) % UINT_MOD) % C ≠ ((r + t2) % UINT_MOD) % C := by
  intro t1 t2 h1 h2 h3
  have e1 : (r + t1) % UINT_MOD = r + t1 := Nat.mod_eq_of_lt (by omega)
  have e2 : (r + t2) % UINT_MOD = r + t2 := Nat.mod_eq_of_lt (by omega)
  rw [e1, e2]
  exact mod_ne_of_window C _ _ (by omega) (by omega)

/-- The slots of up to `C` consecutive pushes are pairwise distinct for any
base counter value — wrap at 2^32 included — when `C` divides 2^32. -/
theorem slots_distinct_of_dvd (C r n : Nat) (hn : n ≤ C) (hdvd : C ∣ UINT_MOD) :
    ∀ t1 t2 : Nat, 0 < t1 → t1 < t2 → t2 ≤ n →
      ((r + t1) % UINT_MOD) % C ≠ ((r + t2) % UINT_MOD) % C := by
  intro t1 t2 h1 h2 h3
  rw [Nat.mod_mod_of_dvd _ hdvd, Nat.mod_mod_of_dvd _ hdvd]
  exact mod_ne_of_window C _ _ (by omega) (by omega)

theorem pop_event_empty (C : Nat) (s : EventQueue) (h : s.read_index = s.write_index) :
    pop_event C s = (eventNone, s) := by
  simp [pop_event, h]

theorem pop_event_advance (C : Nat) (s : EventQueue) (h : s.read_index ≠ s.write_index) :
    (pop_event C s).2 = { s with read_index := (s.read_index + 1) % UINT_MOD } := by
  simp [pop_event, h]

/-- C10: for every `EventQueue` state in which the read index equals the write
index (queue empty), `pop_event` returns an Event with type `EVENT_NONE` and
value 0 and leaves the entire queue state unchanged: neither cursor is
advanced and no buffer slot is read or modified. -/
theorem pop_event_empty_is_noop (C : Nat) (s : EventQueue)
    (h : s.read_index = s.write_index) :
    pop_event C s = (⟨EventType.EVENT_NONE, 0⟩, s) :=
  pop_event_empty C s h

theorem pop_event_empty_is_noop_witness :
    EventQueue.init.read_index = EventQueue.init.write_index ∧
    pop_event 1024 EventQueue.init = (⟨EventType.EVENT_NONE, 0⟩, EventQueue.init) :=
  ⟨rfl, pop_event_empty_is_noop 1024 EventQueue.init rfl⟩

/-- C2: with fewer than `MAX_EVENTS` pending events (here: capacity above 3),
pushing events `a`, `b`, `c` onto an empty queue and then popping three times
returns `a`, `b`, `c` in that order, and a fourth pop returns the NONE-typed
sentinel without consuming anything. -/
theorem eventQueue_fifo_abc (C : Nat) (a b c : Event) (h : 3 < C) :
    drain C 4 (pushList C [a, b, c] EventQueue.init) = [a, b, c] ∧
    pop_event C (pop_n C 3 (pushList C [a, b, c] EventQueue.init)) =
      (⟨EventType.EVENT_NONE, 0⟩, pop_n C 3 (pushList C [a, b, c] EventQueue.init)) := by
  have hUnum : (3 : Nat) + 1 < UINT_MOD := by norm_num [UINT_MOD]
  have hr3 : (pushList C [a, b, c] EventQueue.init).read_index = 0 :=
    pushList_read C [a, b, c] EventQueue.init
  have hw3 : (pushList C [a, b, c] EventQueue.init).write_index = 3 := by
    rw [pushList_write C [a, b, c] EventQueue.init
      (by norm_num [EventQueue.init, UINT_MOD])]
    norm_num [EventQueue.init, UINT_MOD]
  constructor
  · have hkey := slots_distinct_of_no_wrap C 0 3 (Nat.le_of_lt h) (by norm_num [UINT_MOD])
    exact drain_pushList C 0 (fun _ => eventNone) [a, b, c] (by norm_num [UINT_MOD])
      (by norm_num [UINT_MOD]) hkey 4 (by norm_num)
  · have hstep : ∀ (s : EventQueue) (k : Nat), s.read_index = k → k < 3 →
        s.write_index = 3 →
        (pop_event C s).2.read_index = k + 1 ∧ (pop_event C s).2.write_index = 3 := by
      intro s k hk hk3 hw
      have hne : s.read_index ≠ s.write_index := by omega
      rw [pop_event_advance C s hne]
      refine ⟨?_, hw⟩
      show (s.read_index + 1) % UINT_MOD = k + 1
      rw [hk]
      exact Nat.mod_eq_of_lt (by omega)
    have h1 := hstep _ 0 hr3 (by norm_num) hw3
    have h2 := hstep _ 1 h1.1 (by norm_num) h1.2
    have h3 := hstep _ 2 h2.1 (by norm_num) h2.2
    have e3 : pop_n C 3 (pushList C [a, b, c] EventQueue.init) =
        (pop_event C (pop_event C (pop_event C
          (pushList C [a, b, c] EventQueue.init)).2).2).2 := rfl
    have hfin : (pop_n C 3 (pushList C [a, b, c] EventQueue.init)).read_index =
        (pop_n C 3 (pushList C [a, b, c] EventQueue.init)).write_index := by
      rw [e3, h3.1, h3.2]
    exact pop_event_empty C _ hfin

theorem eventQueue_fifo_abc_witness :
    3 < 4 ∧
    (drain 4 4 (pushList 4 [evE 1, evE 2, evE 3] EventQueue.init) = [evE 1, evE 2, evE 3] ∧
     pop_event 4 (pop_n 4 3 (pushList 4 [evE 1, evE 2, evE 3] EventQueue.init)) =
       (⟨EventType.EVENT_NONE, 0⟩, pop_n 4 3 (pushList 4 [evE 1, evE 2, evE 3] EventQueue.init))) :=
  ⟨by norm_num, eventQueue_fifo_abc 4 (evE 1) (evE 2) (evE 3) (by norm_num)⟩

/-- C1 counterexample: with capacity 4, pushing 5 events onto an empty queue
and draining does not yield exactly the most recent 4 events: it yields 5
events (the newest event appears twice, first and last). -/
theorem eventQueue_overflow_counterexample :
    drain 4 10 (pushList 4 [evE 1, evE 2, evE 3, evE 4, evE 5] EventQueue.init) ≠
      [evE 2, evE 3, evE 4, evE 5] ∧
    (drain 4 10 (pushList 4 [evE 1, evE 2, evE 3, evE 4, evE 5] EventQueue.init)).length ≠ 4 := by
  decide

/-- C1 (amended): pushing `C + k` events (`0 < k ≤ C`) onto an empty queue of
capacity `C` and then popping until the sentinel yields `C + k` events, not
`C`: first the `k` newest events, then the newest `C` events in order — i.e.
`es.drop C ++ es.drop k`.  The oldest `k` events are lost and the newest `k`
are returned twice; every push succeeds immediately (`push_event` is total). -/
theorem eventQueue_overflow_drain (C k : Nat) (es : List Event)
    (hk : 0 < k) (hkC : k ≤ C) (hlen : es.length = C + k)
    (hU : C + k + 1 < UINT_MOD) :
    drain C (C + k) (pushList C es EventQueue.init) = es.drop C ++ es.drop k := by
  have hC : 0 < C := Nat.lt_of_lt_of_le hk hkC
  have hread : (pushList C es EventQueue.init).read_index = 0 := pushList_read C es _
  have hwrite : (pushList C es EventQueue.init).write_index = C + k := by
    rw [pushList_write C es EventQueue.init (by norm_num [EventQueue.init, UINT_MOD])]
    show (0 + es.length) % UINT_MOD = C + k
    rw [Nat.zero_add, hlen]
    exact Nat.mod_eq_of_lt (by omega)
  have hlen_take : (es.take k).length = k := by rw [List.length_take]; omega
  have hlen_drop : (es.drop k).length = C := by rw [List.length_drop]; omega
  have hlenC : (es.drop C).length = k := by rw [List.length_drop]; omega
  have hwa : (pushList C (es.take k) EventQueue.init).write_index = k := by
    rw [pushList_write C (es.take k) EventQueue.init (by norm_num [EventQueue.init, UINT_MOD])]
    show (0 + (es.take k).length) % UINT_MOD = k
    rw [Nat.zero_add, hlen_take]
    exact Nat.mod_eq_of_lt (by omega)
  have hbufeq : ∀ (i : Nat) (hi : i < C),
      (pushList C es EventQueue.init).events_buffer (((k + (i + 1)) % UINT_MOD) % C) =
        (es.drop k).get ⟨i, hlen_drop.symm ▸ hi⟩ := by
    intro i hi
    have hrw : pushList C es EventQueue.init =
        pushList C (es.drop k) (pushList C (es.take k) EventQueue.init) := by
      conv_lhs => rw [← List.take_append_drop k es]
      exact pushList_append C _ _ _
    have hkey0 := slots_distinct_of_no_wrap C k C (le_refl C) (by omega)
    have hkey : ∀ t1 t2 : Nat, 0 < t1 → t1 < t2 → t2 ≤ (es.drop k).length →
        (((pushList C (es.take k) EventQueue.init).write_index + t1) % UINT_MOD) % C ≠
          (((pushList C (es.take k) EventQueue.init).write_index + t2) % UINT_MOD) % C := by
      intro t1 t2 h1 h2 h3
      rw [hwa]
      exact hkey0 t1 t2 h1 h2 (by omega)
    have happ := pushList_buffer C (es.drop k) (pushList C (es.take k) EventQueue.init)
      (by rw [hwa]; omega) hkey i (hlen_drop.symm ▸ hi)
    rw [hwa] at happ
    rw [hrw]
    exact happ
  rw [drain_spec C (C + k) (C + k) (pushList C es EventQueue.init)
    (by rw [hread]; exact UINT_MOD_pos) hU
    (by rw [hwrite, hread, Nat.zero_add]; exact (Nat.mod_eq_of_lt (by omega)).symm)
    (le_refl _)]
  apply List.ext_getElem
  · simp only [List.length_map, List.length_range, List.length_append, List.length_drop, hlen]
    omega
  · intro p h1 h2
    simp only [List.getElem_map, List.getElem_range]
    rw [hread]
    have hp : p < C + k := by simpa using h1
    have hidx : ∀ (l : List Event) (i j : Nat) (h : i < l.length) (e : i = j),
        l.get ⟨i, h⟩ = l.get ⟨j, e ▸ h⟩ := by
      intro l i j h e
      subst e
      rfl
    rcases Nat.lt_or_ge p k with hpk | hpk
    · -- the first k drained events are the k newest pushed events
      have hi : C + p - k < C := by omega
      have hb := hbufeq (C + p - k) hi
      have harg : ((k + (C + p - k + 1)) % UINT_MOD) % C = ((0 + (p + 1)) % UINT_MOD) % C := by
        have e1 : k + (C + p - k + 1) = C + (p + 1) := by omega
        rw [e1, Nat.zero_add, Nat.mod_eq_of_lt (show C + (p + 1) < UINT_MOD by omega),
          Nat.mod_eq_of_lt (show p + 1 < UINT_MOD by omega)]
        exact Nat.add_mod_left C (p + 1)
      rw [← harg, hb]
      have hL1 : (es.drop k).get ⟨C + p - k, by omega⟩ =
          es.get ⟨k + (C + p - k), by omega⟩ := List.getElem_drop es
      have hL2 : es.get ⟨k + (C + p - k), by omega⟩ = es.get ⟨C + p, by omega⟩ :=
        hidx es _ _ _ (by omega)
      have hR1 : (es.drop C ++ es.drop k).get ⟨p, h2⟩ =
          (es.drop C).get ⟨p, by omega⟩ := List.getElem_append_left (by omega)
      have hR2 : (es.drop C).get ⟨p, by omega⟩ = es.get ⟨C + p, by omega⟩ :=
        List.getElem_drop es
      exact (hL1.trans hL2).trans (hR1.trans hR2).symm
    · -- the remaining drained events are the newest C events in order
      have hi : p - k < C := by omega
      have hb := hbufeq (p - k) hi
      have harg : ((k + (p - k + 1)) % UINT_MOD) % C = ((0 + (p + 1)) % UINT_MOD) % C := by
        have e1 : k + (p - k + 1) = p + 1 := by omega
        rw [e1, Nat.zero_add]
      rw [← harg, hb]
      have hR1 : (es.drop C ++ es.drop k).get ⟨p, h2⟩ =
          (es.drop k).get ⟨p - (es.drop C).length, by omega⟩ :=
        List.getElem_append_right (by omega)
      have hR2 : (es.drop k).get ⟨p - (es.drop C).length, by omega⟩ =
          (es.drop k).get ⟨p - k, by omega⟩ :=
        hidx (es.drop k) _ _ _ (by omega)
      exact (hR1.trans hR2).symm

theorem eventQueue_overflow_drain_witness :
    0 < 1 ∧ 1 ≤ 2 ∧ ([evE 1, evE 2, evE 3] : List Event).length = 2 + 1 ∧
    2 + 1 + 1 < UINT_MOD ∧
    drain 2 (2 + 1) (pushList 2 [evE 1, evE 2, evE 3] EventQueue.init) =
      [evE 1, evE 2, evE 3].drop 2 ++ [evE 1, evE 2, evE 3].drop 1 :=
  ⟨by decide, by decide, by decide, by decide,
    eventQueue_overflow_drain 2 1 [evE 1, evE 2, evE 3] (by decide) (by decide) (by decide)
      (by decide)⟩

/-- C3: the `EventQueue` cursors are pre-incremented counters reduced modulo
2^32 (the `unsigned int` type) — never reduced modulo the capacity except at
the moment a slot is accessed, and never reset: a push advances only the write
cursor by one, a non-empty pop advances only the read cursor by one, and FIFO
pop behaviour is preserved for arbitrary cursor base values `r` — i.e. across
arbitrarily many wraps of the counters modulo the capacity, including the
wraparound of the unsigned counter at 2^32 — whenever the capacity divides
2^32 (as any power-of-two `MAX_EVENTS` does). -/
theorem eventQueue_cursor_wraparound (C : Nat) (t : EventType) (v : Int)
    (s0 : EventQueue) (r : Nat) (buf : Nat → Event) (es : List Event)
    (hdvd : C ∣ UINT_MOD) (hne : s0.read_index ≠ s0.write_index)
    (hr : r < UINT_MOD) (hes : es.length < C) (hesU : es.length + 1 < UINT_MOD) :
    ((push_event C t v s0).write_index = (s0.write_index + 1) % UINT_MOD ∧
      (push_event C t v s0).read_index = s0.read_index) ∧
    ((pop_event C s0).2.read_index = (s0.read_index + 1) % UINT_MOD ∧
      (pop_event C s0).2.write_index = s0.write_index) ∧
    drain C es.length (pushList C es ⟨r, r, buf⟩) = es := by
  refine ⟨⟨rfl, rfl⟩, ?_, ?_⟩
  · rw [pop_event_advance C s0 hne]
    exact ⟨rfl, rfl⟩
  · have hkey := slots_distinct_of_dvd C r es.length (Nat.le_of_lt hes) hdvd
    exact drain_pushList C r buf es hr hesU hkey es.length (le_refl _)

theorem eventQueue_cursor_wraparound_witness :
    (4 ∣ UINT_MOD) ∧ qSample.read_index ≠ qSample.write_index ∧
    4294967295 < UINT_MOD ∧ ([evE 6, evE 7] : List Event).length < 4 ∧
    ([evE 6, evE 7] : List Event).length + 1 < UINT_MOD ∧
    (((push_event 4 EventType.EVENT_SERVER_SHUTDOWN 3 qSample).write_index =
        (qSample.write_index + 1) % UINT_MOD ∧
      (push_event 4 EventType.EVENT_SERVER_SHUTDOWN 3 qSample).read_index =
        qSample.read_index) ∧
    ((pop_event 4 qSample).2.read_index = (qSample.read_index + 1) % UINT_MOD ∧
      (pop_event 4 qSample).2.write_index = qSample.write_index) ∧
    drain 4 ([evE 6, evE 7] : List Event).length
      (pushList 4 [evE 6, evE 7] ⟨4294967295, 4294967295, bufSample⟩) = [evE 6, evE 7]) :=
  ⟨by norm_num [UINT_MOD], by decide, by norm_num [UINT_MOD], by norm_num,
    by norm_num [UINT_MOD],
    eventQueue_cursor_wraparound 4 EventType.EVENT_SERVER_SHUTDOWN 3 qSample 4294967295
      bufSample [evE 6, evE 7] (by norm_num [UINT_MOD]) (by decide)
      (by norm_num [UINT_MOD]) (by norm_num) (by norm_num [UINT_MOD])⟩

/-- C4: over any sequence of transport cycles containing no tick-size change
and no relocation, externalFrame − internalFrame stays exactly equal to the
frame offset captured at the last tick-size change (externalFrame =
internalFrame + m_frameOffset throughout), and a plain rolling cycle never
recomputes `m_frameOffset`. -/
theorem jack_frame_offset_invariant (evs : List TransportCycleEvent) (s : TransportSyncState)
    (hadv : ∀ e ∈ evs, e.isAdvance = true)
    (hinv : s.externalFrame = s.internalFrame + s.m_frameOffset) :
    (runTransportCycles evs s).externalFrame =
      (runTransportCycles evs s).internalFrame + (runTransportCycles evs s).m_frameOffset ∧
    (runTransportCycles evs s).m_frameOffset = s.m_frameOffset ∧
    (runTransportCycles evs s).externalFrame - (runTransportCycles evs s).internalFrame =
      s.m_frameOffset := by
  induction evs generalizing s with
  | nil =>
    exact ⟨hinv, rfl, by
      show s.externalFrame - s.internalFrame = s.m_frameOffset
      omega⟩
  | cons e evs ih =>
    have he : e.isAdvance = true := hadv e (List.mem_cons_self e evs)
    cases e with
    | advance n =>
      have hadv' : ∀ e ∈ evs, e.isAdvance = true := fun e h =>
        hadv e (List.mem_cons_of_mem _ h)
      show ((runTransportCycles evs (transportCycle (TransportCycleEvent.advance n) s)).externalFrame = _ ∧ _ ∧ _)
      exact ih (transportCycle (TransportCycleEvent.advance n) s) hadv'
        (by simp [transportCycle]; omega)
    | tickSizeChange ts ri => simp [TransportCycleEvent.isAdvance] at he
    | relocate f => simp [TransportCycleEvent.isAdvance] at he

theorem jack_frame_offset_invariant_witness :
    (∀ e ∈ [TransportCycleEvent.advance 128, TransportCycleEvent.advance 256],
      e.isAdvance = true) ∧
    (TransportSyncState.mk 100 140 40 441).externalFrame =
      (TransportSyncState.mk 100 140 40 441).internalFrame +
        (TransportSyncState.mk 100 140 40 441).m_frameOffset ∧
    ((runTransportCycles [TransportCycleEvent.advance 128, TransportCycleEvent.advance 256]
        (TransportSyncState.mk 100 140 40 441)).externalFrame =
      (runTransportCycles [TransportCycleEvent.advance 128, TransportCycleEvent.advance 256]
        (TransportSyncState.mk 100 140 40 441)).internalFrame +
        (runTransportCycles [TransportCycleEvent.advance 128, TransportCycleEvent.advance 256]
          (TransportSyncState.mk 100 140 40 441)).m_frameOffset ∧
    (runTransportCycles [TransportCycleEvent.advance 128, TransportCycleEvent.advance 256]
        (TransportSyncState.mk 100 140 40 441)).m_frameOffset =
      (TransportSyncState.mk 100 140 40 441).m_frameOffset ∧
    (runTransportCycles [TransportCycleEvent.advance 128, TransportCycleEvent.advance 256]
        (TransportSyncState.mk 100 140 40 441)).externalFrame -
      (runTransportCycles [TransportCycleEvent.advance 128, TransportCycleEvent.advance 256]
        (TransportSyncState.mk 100 140 40 441)).internalFrame =
      (TransportSyncState.mk 100 140 40 441).m_frameOffset) :=
  ⟨by decide, by decide,
    jack_frame_offset_invariant [TransportCycleEvent.advance 128, TransportCycleEvent.advance 256]
      (TransportSyncState.mk 100 140 40 441) (by decide) (by decide)⟩

/-- Any sequence of timebase cycles leaves a non-Master state untouched. -/
theorem runTimebaseCycles_nonmaster (fires : List Bool) (s : TimebaseArbState)
    (h : s.m_timebaseState ≠ Timebase.Master) :
    runTimebaseCycles fires s = s := by
  induction fires generalizing s with
  | nil => rfl
  | cons b fires ih =>
    have hstep : timebaseCycle b s = s := by
      simp [timebaseCycle, h]
    show runTimebaseCycles fires (timebaseCycle b s) = s
    rw [hstep]
    exact ih s h

/-- C5: while the local role is Master, a firing timebase callback resets the
countdown `m_nTimebaseTracking` to its fixed positive reset value and keeps
the role Master, whereas running any positive number of cycles in which the
expected callback never fires drives the countdown to zero and automatically
demotes the local role from Master (to Slave, an external program having
taken over). -/
theorem jack_timebase_demotion (s : TimebaseArbState) (n : Nat)
    (hM : s.m_timebaseState = Timebase.Master)
    (ht : s.m_nTimebaseTracking = TIMEBASE_RESET) (hn : 1 ≤ n) :
    (timebaseCycle true s).m_nTimebaseTracking = TIMEBASE_RESET ∧
    (timebaseCycle true s).m_timebaseState = Timebase.Master ∧
    (runTimebaseCycles (List.replicate n false) s).m_timebaseState = Timebase.Slave := by
  refine ⟨?_, ?_, ?_⟩
  · simp [timebaseCycle, hM]
  · simp [timebaseCycle, hM]
  · obtain ⟨m, rfl⟩ : ∃ m, n = m + 1 := ⟨n - 1, by omega⟩
    have hstep : timebaseCycle false s = ⟨0, Timebase.Slave⟩ := by
      norm_num [timebaseCycle, hM, ht, TIMEBASE_RESET]
    have hrepl : runTimebaseCycles (List.replicate (m + 1) false) s =
        runTimebaseCycles (List.replicate m false) (timebaseCycle false s) := by
      rw [List.replicate_succ]
      rfl
    rw [hrepl, hstep, runTimebaseCycles_nonmaster _ _ (by decide)]

theorem jack_timebase_demotion_witness :
    (TimebaseArbState.mk 1 Timebase.Master).m_timebaseState = Timebase.Master ∧
    (TimebaseArbState.mk 1 Timebase.Master).m_nTimebaseTracking = TIMEBASE_RESET ∧
    1 ≤ 3 ∧
    ((timebaseCycle true (TimebaseArbState.mk 1 Timebase.Master)).m_nTimebaseTracking =
        TIMEBASE_RESET ∧
      (timebaseCycle true (TimebaseArbState.mk 1 Timebase.Master)).m_timebaseState =
        Timebase.Master ∧
      (runTimebaseCycles (List.replicate 3 false)
          (TimebaseArbState.mk 1 Timebase.Master)).m_timebaseState = Timebase.Slave) :=
  ⟨by decide, by decide, by decide,
    jack_timebase_demotion (TimebaseArbState.mk 1 Timebase.Master) 3 (by decide) (by decide)
      (by decide)⟩

/-- Once `nWaits` has run out, every further callback cycle broadcasts the
tempo. -/
theorem timebaseCallbackRun_zero (k : Nat) :
    timebaseCallbackRun k 0 = List.replicate k TimebaseBroadcast.tempoBroadcast := by
  induction k with
  | zero => rfl
  | succ k ih =>
    show (timebaseCallbackStep 0).1 :: timebaseCallbackRun k (timebaseCallbackStep 0).2 = _
    rw [List.replicate_succ]
    exact congrArg (List.cons TimebaseBroadcast.tempoBroadcast) ih

/-- C6: after a relocation issued while this process is timebase Master
(`nWaits` set to `RELOCATION_WAIT_CYCLES` = 2), the next two callback cycles
compute the position update from the relocation target instead of
broadcasting the current tempo, and tempo broadcast resumes in every cycle
from the third on: suppression lasts exactly two full cycles. -/
theorem jack_relocation_tempo_suppression (k : Nat) :
    timebaseCallbackRun (k + 2) RELOCATION_WAIT_CYCLES =
      TimebaseBroadcast.fromRelocationTarget :: TimebaseBroadcast.fromRelocationTarget ::
        List.replicate k TimebaseBroadcast.tempoBroadcast := by
  have hrun2 : timebaseCallbackRun (k + 2) 2 =
      TimebaseBroadcast.fromRelocationTarget :: TimebaseBroadcast.fromRelocationTarget ::
        timebaseCallbackRun k 0 := rfl
  show timebaseCallbackRun (k + 2) 2 =
      TimebaseBroadcast.fromRelocationTarget :: TimebaseBroadcast.fromRelocationTarget ::
        List.replicate k TimebaseBroadcast.tempoBroadcast
  rw [hrun2, timebaseCallbackRun_zero]

theorem setTrackOutput_count (n : Nat) (instr : Instrument) (pCompo : InstrumentComponent)
    (s : TrackPortState) :
    (setTrackOutput n instr pCompo s).1.m_nTrackPortCount =
      max s.m_nTrackPortCount (n + 1) := by
  simp only [setTrackOutput]
  split
  · rename_i h
    show n + 1 = max s.m_nTrackPortCount (n + 1)
    omega
  · rename_i h
    show s.m_nTrackPortCount = max s.m_nTrackPortCount (n + 1)
    omega

theorem setTrackOutput_portsL (n : Nat) (instr : Instrument) (pCompo : InstrumentComponent)
    (s : TrackPortState) (hn : n ≤ s.m_nTrackPortCount) (m : Nat) :
    (setTrackOutput n instr pCompo s).1.portsL m =
      if m = n then trackPortNameL pCompo.drumkitComponentName n instr.name
      else s.portsL m := by
  simp only [setTrackOutput]
  by_cases hm : m = n
  · subst hm
    rw [Function.update_same, if_pos rfl]
  · rw [Function.update_noteq hm, if_neg hm]
    split
    · rename_i hc
      show (if s.m_nTrackPortCount ≤ m ∧ m ≤ n then provisionalPortNameL m
        else s.portsL m) = s.portsL m
      have hcond : ¬(s.m_nTrackPortCount ≤ m ∧ m ≤ n) := by omega
      rw [if_neg hcond]
    · rfl

theorem setTrackOutput_portsR (n : Nat) (instr : Instrument) (pCompo : InstrumentComponent)
    (s : TrackPortState) (hn : n ≤ s.m_nTrackPortCount) (m : Nat) :
    (setTrackOutput n instr pCompo s).1.portsR m =
      if m = n then trackPortNameR pCompo.drumkitComponentName n instr.name
      else s.portsR m := by
  simp only [setTrackOutput]
  by_cases hm : m = n
  · subst hm
    rw [Function.update_same, if_pos rfl]
  · rw [Function.update_noteq hm, if_neg hm]
    split
    · rename_i hc
      show (if s.m_nTrackPortCount ≤ m ∧ m ≤ n then provisionalPortNameR m
        else s.portsR m) = s.portsR m
      have hcond : ¬(s.m_nTrackPortCount ≤ m ∧ m ≤ n) := by omega
      rw [if_neg hcond]
    · rfl

theorem runPairs_ports_outside (pairs : List (Instrument × InstrumentComponent)) :
    ∀ (n : Nat) (s : TrackPortState), n ≤ s.m_nTrackPortCount →
    ∀ (m : Nat), (m < n ∨ n + pairs.length ≤ m) →
    (runPairs pairs n s).1.portsL m = s.portsL m ∧
    (runPairs pairs n s).1.portsR m = s.portsR m := by
  induction pairs with
  | nil => intro n s hn m hm; exact ⟨rfl, rfl⟩
  | cons p rest ih =>
    intro n s hn m hm
    simp only [List.length_cons] at hm
    have hcount' : n + 1 ≤ (setTrackOutput n p.1 p.2 s).1.m_nTrackPortCount := by
      rw [setTrackOutput_count]
      omega
    have hmne : m ≠ n := by omega
    have hrest := ih (n + 1) (setTrackOutput n p.1 p.2 s).1 hcount' m (by omega)
    constructor
    · show (runPairs rest (n + 1) (setTrackOutput n p.1 p.2 s).1).1.portsL m = s.portsL m
      rw [hrest.1, setTrackOutput_portsL n p.1 p.2 s hn m, if_neg hmne]
    · show (runPairs rest (n + 1) (setTrackOutput n p.1 p.2 s).1).1.portsR m = s.portsR m
      rw [hrest.2, setTrackOutput_portsR n p.1 p.2 s hn m, if_neg hmne]

theorem runPairs_ports_inside (pairs : List (Instrument × InstrumentComponent)) :
    ∀ (n : Nat) (s : TrackPortState), n ≤ s.m_nTrackPortCount →
    ∀ (j : Nat) (hj : j < pairs.length),
    (runPairs pairs n s).1.portsL (n + j) =
      trackPortNameL (pairs.get ⟨j, hj⟩).2.drumkitComponentName (n + j)
        (pairs.get ⟨j, hj⟩).1.name ∧
    (runPairs pairs n s).1.portsR (n + j) =
      trackPortNameR (pairs.get ⟨j, hj⟩).2.drumkitComponentName (n + j)
        (pairs.get ⟨j, hj⟩).1.name := by
  induction pairs with
  | nil => intro n s hn j hj; simp at hj
  | cons p rest ih =>
    intro n s hn j hj
    have hcount' : n + 1 ≤ (setTrackOutput n p.1 p.2 s).1.m_nTrackPortCount := by
      rw [setTrackOutput_count]
      omega
    cases j with
    | zero =>
      have hout := runPairs_ports_outside rest (n + 1) (setTrackOutput n p.1 p.2 s).1
        hcount' n (Or.inl (by omega))
      constructor
      · show (runPairs rest (n + 1) (setTrackOutput n p.1 p.2 s).1).1.portsL n =
          trackPortNameL p.2.drumkitComponentName n p.1.name
        rw [hout.1, setTrackOutput_portsL n p.1 p.2 s hn n, if_pos rfl]
      · show (runPairs rest (n + 1) (setTrackOutput n p.1 p.2 s).1).1.portsR n =
          trackPortNameR p.2.drumkitComponentName n p.1.name
        rw [hout.2, setTrackOutput_portsR n p.1 p.2 s hn n, if_pos rfl]
    | succ j' =>
      have hrec := ih (n + 1) (setTrackOutput n p.1 p.2 s).1 hcount' j' (by simpa using hj)
      have hidx : (n + 1) + j' = n + (j' + 1) := by omega
      rw [hidx] at hrec
      constructor
      · show (runPairs rest (n + 1) (setTrackOutput n p.1 p.2 s).1).1.portsL (n + (j' + 1)) =
          trackPortNameL (rest.get ⟨j', by simpa using hj⟩).2.drumkitComponentName (n + (j' + 1))
            (rest.get ⟨j', by simpa using hj⟩).1.name
        exact hrec.1
      · show (runPairs rest (n + 1) (setTrackOutput n p.1 p.2 s).1).1.portsR (n + (j' + 1)) =
          trackPortNameR (rest.get ⟨j', by simpa using hj⟩).2.drumkitComponentName (n + (j' + 1))
            (rest.get ⟨j', by simpa using hj⟩).1.name
        exact hrec.2

theorem runPairs_noop (pairs : List (Instrument × InstrumentComponent)) :
    ∀ (n : Nat) (s : TrackPortState), n + pairs.length ≤ s.m_nTrackPortCount →
    (∀ (j : Nat) (hj : j < pairs.length),
      s.portsL (n + j) =
        trackPortNameL (pairs.get ⟨j, hj⟩).2.drumkitComponentName (n + j)
          (pairs.get ⟨j, hj⟩).1.name ∧
      s.portsR (n + j) =
        trackPortNameR (pairs.get ⟨j, hj⟩).2.drumkitComponentName (n + j)
          (pairs.get ⟨j, hj⟩).1.name) →
    runPairs pairs n s = (s, 0, 2 * pairs.length) := by
  induction pairs with
  | nil => intro n s h1 h2; rfl
  | cons p rest ih =>
    intro n s h1 h2
    simp only [List.length_cons] at h1
    have hcount : ¬ s.m_nTrackPortCount ≤ n := by omega
    have hL : s.portsL n = trackPortNameL p.2.drumkitComponentName n p.1.name :=
      (h2 0 (by simp)).1
    have hR : s.portsR n = trackPortNameR p.2.drumkitComponentName n p.1.name :=
      (h2 0 (by simp)).2
    have hset : setTrackOutput n p.1 p.2 s = (s, 0, 2) := by
      simp only [setTrackOutput, if_neg hcount]
      rw [← hL, ← hR, Function.update_eq_self, Function.update_eq_self]
    have h2' : ∀ (j : Nat) (hj : j < rest.length),
        s.portsL ((n + 1) + j) =
          trackPortNameL (rest.get ⟨j, hj⟩).2.drumkitComponentName ((n + 1) + j)
            (rest.get ⟨j, hj⟩).1.name ∧
        s.portsR ((n + 1) + j) =
          trackPortNameR (rest.get ⟨j, hj⟩).2.drumkitComponentName ((n + 1) + j)
            (rest.get ⟨j, hj⟩).1.name := by
      intro j hj
      have hshift := h2 (j + 1) (by simp only [List.length_cons]; omega)
      have hidx : n + (j + 1) = (n + 1) + j := by omega
      rw [hidx] at hshift
      exact hshift
    have hrest := ih (n + 1) s (by omega) h2'
    show ((runPairs rest (n + 1) (setTrackOutput n p.1 p.2 s).1).1,
        (setTrackOutput n p.1 p.2 s).2.1 +
          (runPairs rest (n + 1) (setTrackOutput n p.1 p.2 s).1).2.1,
        (setTrackOutput n p.1 p.2 s).2.2 +
          (runPairs rest (n + 1) (setTrackOutput n p.1 p.2 s).1).2.2) =
      (s, 0, 2 * (p :: rest).length)
    rw [hset]
    show ((runPairs rest (n + 1) s).1, 0 + (runPairs rest (n + 1) s).2.1,
        2 + (runPairs rest (n + 1) s).2.2) = (s, 0, 2 * (p :: rest).length)
    rw [hrest]
    show (s, 0 + 0, 2 + 2 * rest.length) = (s, 0, 2 * (p :: rest).length)
    have harith : 2 + 2 * rest.length = 2 * (p :: rest).length := by
      rw [List.length_cons]
      omega
    rw [harith]

theorem trackPortState_ext (a b : TrackPortState)
    (h1 : a.m_nTrackPortCount = b.m_nTrackPortCount)
    (h2 : ∀ m, a.portsL m = b.portsL m) (h3 : ∀ m, a.portsR m = b.portsR m) : a = b := by
  obtain ⟨c1, l1, r1⟩ := a
  obtain ⟨c2, l2, r2⟩ := b
  have e1 : c1 = c2 := h1
  have e2 : l1 = l2 := funext h2
  have e3 : r1 = r2 := funext h3
  subst e1
  subst e2
  subst e3
  rfl

/-- C7 counterexample: re-invoking the topology rebuild with the unchanged
one-instrument song still performs rename calls (the `n`-th port pair is
unconditionally renamed on every invocation, as documented for
`setTrackOutput`), so the second invocation does not perform zero port
renames. -/
theorem makeTrackOutputs_rename_counterexample :
    (makeTrackOutputs songKick (makeTrackOutputs songKick emptyTrackPorts).state).nRenamed ≠
      0 := by
  decide

/-- C7 (amended): re-invoking `makeTrackOutputs` with an unchanged
instrument/component set is a no-op on the port state, produces the identical
(instrument, component) → track-index mapping, and performs zero port
registrations; rename calls are still issued (two per track pair), but each
renames a port to the name it already bears, so no port name changes. -/
theorem makeTrackOutputs_idempotent (song : List Instrument) (s0 : TrackPortState) :
    (makeTrackOutputs song (makeTrackOutputs song s0).state).state =
      (makeTrackOutputs song s0).state ∧
    (makeTrackOutputs song (makeTrackOutputs song s0).state).m_trackMap =
      (makeTrackOutputs song s0).m_trackMap ∧
    (makeTrackOutputs song (makeTrackOutputs song s0).state).nRegistered = 0 ∧
    (makeTrackOutputs song (makeTrackOutputs song s0).state).nRenamed =
      2 * (songPairs song).length := by
  have hT : (makeTrackOutputs song s0).state.m_nTrackPortCount =
      (songPairs song).length := rfl
  have hnames : ∀ (j : Nat) (hj : j < (songPairs song).length),
      (makeTrackOutputs song s0).state.portsL j =
        trackPortNameL ((songPairs song).get ⟨j, hj⟩).2.drumkitComponentName j
          ((songPairs song).get ⟨j, hj⟩).1.name ∧
      (makeTrackOutputs song s0).state.portsR j =
        trackPortNameR ((songPairs song).get ⟨j, hj⟩).2.drumkitComponentName j
          ((songPairs song).get ⟨j, hj⟩).1.name := by
    intro j hj
    have hin := runPairs_ports_inside (songPairs song) 0 s0 (Nat.zero_le _) j hj
    have hz : (0 : Nat) + j = j := by omega
    rw [hz] at hin
    constructor
    · show (if (songPairs song).length ≤ j ∧
            j < (runPairs (songPairs song) 0 s0).1.m_nTrackPortCount
          then "" else (runPairs (songPairs song) 0 s0).1.portsL j) = _
      rw [if_neg (by omega)]
      exact hin.1
    · show (if (songPairs song).length ≤ j ∧
            j < (runPairs (songPairs song) 0 s0).1.m_nTrackPortCount
          then "" else (runPairs (songPairs song) 0 s0).1.portsR j) = _
      rw [if_neg (by omega)]
      exact hin.2
  have hnoop := runPairs_noop (songPairs song) 0 (makeTrackOutputs song s0).state
    (by omega)
    (fun j hj => by
      have h := hnames j hj
      have hz : (0 : Nat) + j = j := by omega
      rw [hz]
      exact h)
  refine ⟨?_, rfl, ?_, ?_⟩
  · apply trackPortState_ext
    · show (songPairs song).length = (makeTrackOutputs song s0).state.m_nTrackPortCount
      rw [hT]
    · intro m
      show (if (songPairs song).length ≤ m ∧
            m < (runPairs (songPairs song) 0
              (makeTrackOutputs song s0).state).1.m_nTrackPortCount
          then "" else
            (runPairs (songPairs song) 0 (makeTrackOutputs song s0).state).1.portsL m) =
        (makeTrackOutputs song s0).state.portsL m
      rw [hnoop]
      show (if (songPairs song).length ≤ m ∧
            m < (makeTrackOutputs song s0).state.m_nTrackPortCount
          then "" else (makeTrackOutputs song s0).state.portsL m) =
        (makeTrackOutputs song s0).state.portsL m
      rw [if_neg (by omega)]
    · intro m
      show (if (songPairs song).length ≤ m ∧
            m < (runPairs (songPairs song) 0
              (makeTrackOutputs song s0).state).1.m_nTrackPortCount
          then "" else
            (runPairs (songPairs song) 0 (makeTrackOutputs song s0).state).1.portsR m) =
        (makeTrackOutputs song s0).state.portsR m
      rw [hnoop]
      show (if (songPairs song).length ≤ m ∧
            m < (makeTrackOutputs song s0).state.m_nTrackPortCount
          then "" else (makeTrackOutputs song s0).state.portsR m) =
        (makeTrackOutputs song s0).state.portsR m
      rw [if_neg (by omega)]
  · show (runPairs (songPairs song) 0 (makeTrackOutputs song s0).state).2.1 = 0
    rw [hnoop]
  · show (runPairs (songPairs song) 0 (makeTrackOutputs song s0).state).2.2 =
      2 * (songPairs song).length
    rw [hnoop]

/-- C8: for every track index `n` assigned by the port manager to an
(instrument, component) pair, the per-track output ports are named
`Track_<componentName>_<n+1>_<instrumentName>_L` and
`Track_<componentName>_<n+1>_<instrumentName>_R` — the track index in the
name is the assigned index plus one. -/
theorem jack_track_port_naming (song : List Instrument) (s0 : TrackPortState)
    (n : Nat) (hn : n < (songPairs song).length) :
    (makeTrackOutputs song s0).state.portsL n =
      "Track_" ++ ((songPairs song).get ⟨n, hn⟩).2.drumkitComponentName ++ "_" ++
        toString (n + 1) ++ "_" ++ ((songPairs song).get ⟨n, hn⟩).1.name ++ "_L" ∧
    (makeTrackOutputs song s0).state.portsR n =
      "Track_" ++ ((songPairs song).get ⟨n, hn⟩).2.drumkitComponentName ++ "_" ++
        toString (n + 1) ++ "_" ++ ((songPairs song).get ⟨n, hn⟩).1.name ++ "_R" := by
  have hin := runPairs_ports_inside (songPairs song) 0 s0 (Nat.zero_le _) n hn
  have hz : (0 : Nat) + n = n := by omega
  rw [hz] at hin
  constructor
  · show (if (songPairs song).length ≤ n ∧
        n < (runPairs (songPairs song) 0 s0).1.m_nTrackPortCount
      then "" else (runPairs (songPairs song) 0 s0).1.portsL n) = _
    rw [if_neg (by omega)]
    exact hin.1
  · show (if (songPairs song).length ≤ n ∧
        n < (runPairs (songPairs song) 0 s0).1.m_nTrackPortCount
      then "" else (runPairs (songPairs song) 0 s0).1.portsR n) = _
    rw [if_neg (by omega)]
    exact hin.2

theorem jack_track_port_naming_witness :
    0 < (songPairs songKick).length ∧
    ((makeTrackOutputs songKick emptyTrackPorts).state.portsL 0 =
        "Track_" ++ "Main" ++ "_" ++ toString (0 + 1) ++ "_" ++ "Kick" ++ "_L" ∧
      (makeTrackOutputs songKick emptyTrackPorts).state.portsR 0 =
        "Track_" ++ "Main" ++ "_" ++ toString (0 + 1) ++ "_" ++ "Kick" ++ "_R") :=
  ⟨by decide, jack_track_port_naming songKick emptyTrackPorts 0 (by decide)⟩
